import Mathlib

/- Shallow embedding of the asset-loading queue in src/unnamed/part_000
(module exporting `AssetLoader`), together with the bundled ImageLoader
plugin (src/unnamed/part_002).

Modelling conventions:
* The JS numbers backing `__loadCount` / `__totalItems` are embedded as `Int`
  (they change only by steps of 1, and `__loadCount` can in fact go negative).
* The `tasks` array holds references to the same descriptor objects as
  `assets`; a task's `status` field is never read through `tasks`, so tasks
  are embedded as value copies of the descriptors.
* `this.loading` starts as JS `undefined` and is only assigned `true`/`false`
  and read in boolean positions, so it is embedded as a `Bool` starting at
  `false`.
* Loader plugins are external collaborators.  A loader factory is identified
  by a numeric id; an environment `env : Nat -> String -> RetObj` gives the
  object `{ value, load }` the factory returns for an asset name.  Invoking a
  descriptor's load function starts an asynchronous operation and returns
  without touching the queue; the completion callbacks bound in `update` are
  invoked later, as separate events of a trace.
* Every `throw` of a JS string is embedded with `Except String`; in the
  source every throw happens before any mutation, so an error leaves the
  queue state unchanged.
* JS strings are treated as sequences of characters (`List Char`); the
  handful of string operations used by the source (`slice`, `indexOf`,
  `lastIndexOf`, `split`, `toLowerCase`) are embedded as structural
  recursions over `List Char` so that they evaluate by kernel reduction.
-/

namespace AssetLoader

/-- Status values of `AssetLoader.Status` (part_000 lines 642-647), together
with `jsUndefined`, the JS `undefined` value: the failure branch of
`__loadCallback` (line 503) reads the property `AssetLoader.Status.LOAD_FAILED`,
which is not defined on the `Status` object, so the value actually stored in a
failed descriptor's `status` field is `undefined`. -/
inductive Status where
  | QUEUED
  | LOADING
  | LOAD_SUCCESS
  | LOAD_FAIL
  | jsUndefined
deriving DecidableEq, Repr

/-- A small universe of JS values, enough for the descriptor `value` fields
and for the arguments a loader may pass to a completion callback. -/
inductive JSVal where
  | null
  | undef
  | bool (b : Bool)
  | str (s : String)
  | num (n : Int)
deriving DecidableEq, Repr

/-- `AssetLoader.Descriptor` (part_000 lines 623-628).  `loadFunc` is the
identity of the load function the loader object returned. -/
structure Descriptor where
  name : String
  loadFunc : Nat
  value : JSVal
  status : Status
deriving DecidableEq, Repr

/-- State of one `AssetLoader` instance: the fields set up by the constructor
(part_000 lines 68-177).  `loadCount` is `__loadCount`, `totalItems` is
`__totalItems`, `loaders` is the extension-to-loader registry. -/
structure QueueState where
  assets : List Descriptor
  tasks : List Descriptor
  loadCount : Int
  totalItems : Int
  loading : Bool
  loaders : List (String × Nat)
deriving DecidableEq, Repr

/-- Object returned by a loader factory: `{ value, load }`.  `hasLoadFn`
records whether `typeof retObj.load === "function"` holds. -/
structure RetObj where
  hasLoadFn : Bool
  loadId : Nat
  value : JSVal
deriving DecidableEq, Repr

/-- A completion callback produced by `Function.bind` in `update`
(part_000 lines 558-559): the receiver's `__loadCallback` with the asset
name and the success flag pre-bound. -/
structure BoundCB where
  name : String
  success : Bool
deriving DecidableEq, Repr

/-- Record of one loader invocation performed by `update` (line 562): which
descriptor was started and the two bound callbacks handed to its load
function. -/
structure StartedTask where
  name : String
  loadFunc : Nat
  cb : BoundCB
  cbFail : BoundCB
deriving DecidableEq, Repr

/-- Events dispatched on the four signals (`loadStarted`, `loadProgress`,
`loadError`, `loadFinished`) with their payload fields. -/
inductive Ev where
  | started (current total : Int)
  | progress (name : String) (current total : Int)
  | error (name : String) (current total : Int)
  | finished (current total : Int)
deriving DecidableEq, Repr

/- Character-level helpers for the string operations the source uses. -/

/-- First index of `x` in `l`, or `-1` (JS `String.indexOf`). -/
def containsChar : List Char → Char → Bool
  | [], _ => false
  | c :: rest, x => c = x || containsChar rest x

/-- Characters of `l` strictly before the first occurrence of `x`
(`slice(0, indexOf(x))`, and also `split(x)[0]`). -/
def takeUntil (x : Char) : List Char → List Char
  | [] => []
  | c :: rest => if c = x then [] else c :: takeUntil x rest

/-- Characters of `l` strictly after the last occurrence of `x`, or `l`
itself when `x` does not occur (`split(x).pop()`). -/
def afterLast (x : Char) : List Char → List Char
  | [] => []
  | c :: rest =>
    if containsChar rest x then afterLast x rest
    else if c = x then rest else c :: rest

/-- Index of the last occurrence of `x` in `l`, or `-1`
(JS `String.lastIndexOf`). -/
def lastIndexOfChar (x : Char) : List Char → Int
  | [] => -1
  | c :: rest =>
    let r := lastIndexOfChar x rest
    if r ≠ -1 then r + 1 else if c = x then 0 else -1

/-- `__getDataType` (part_000 lines 221-244): extract a loader key from a
data URI, `none` for a non-data-URI name and for a malformed data URI with
no comma. -/
def __getDataType (s : String) : Option String :=
  let cs := s.toList
  -- starts with 'data:' (the first five characters, lowercased)
  if (cs.take 5).map Char.toLower = "data:".toList then
    let data := cs.drop 5
    -- sepIdx === -1: malformed data URI scheme
    if containsChar data ',' = false then none
    else
      -- e.g. "image/gif;base64" => "image/gif"
      let info := takeUntil ';' (takeUntil ',' data)
      -- standardize empty and text/plain to the "txt" file extension
      if info = [] ∨ info.map Char.toLower = "text/plain".toList then some "txt"
      else some (String.mk ((afterLast '/' info).map Char.toLower))
  else none

/-- `__extension` (part_000 lines 246-251): lowercased substring after the
last dot, or the empty string when there is no clear file extension. -/
def __extension (s : String) : String :=
  let cs := s.toList
  let idx := lastIndexOfChar '.' cs
  if idx = -1 ∨ idx = 0 ∨ idx = (cs.length : Int) - 1 then ""
  else String.mk ((cs.drop (idx.toNat + 1)).map Char.toLower)

/-- `indexOf` (part_000 lines 475-481): index of the first descriptor of
`list` named `name`, or `-1`.  (Descriptors in the model are never the JS
`null`, so the `list[i] &&` guard of the source is always passed.) -/
def indexOf : List Descriptor → String → Int
  | [], _ => -1
  | d :: rest, name =>
    if d.name = name then 0
    else
      let r := indexOf rest name
      if r = -1 then -1 else r + 1

/-- First descriptor of `list` named `name`.  Proof-side companion of
`indexOf`: `getDescriptor_eq_findByName` relates the two. -/
def findByName : List Descriptor → String → Option Descriptor
  | [], _ => none
  | d :: rest, name => if d.name = name then some d else findByName rest name

/-- Proof-side companion of `List.eraseIdx` at the index found by `indexOf`
(the `splice(idx, 1)` calls of `remove`). -/
def eraseFirstByName : List Descriptor → String → List Descriptor
  | [], _ => []
  | d :: rest, name =>
    if d.name = name then rest else d :: eraseFirstByName rest name

/-- Positional status write `list[i].status = st` (part_000 line 501). -/
def setStatus : List Descriptor → Nat → Status → List Descriptor
  | [], _, _ => []
  | d :: rest, 0, st => { d with status := st } :: rest
  | d :: rest, n + 1, st => d :: setStatus rest n st

/-- Proof-side companion of `setStatus` at the index found by `indexOf`. -/
def setStatusByName : List Descriptor → String → Status → List Descriptor
  | [], _, _ => []
  | d :: rest, name, st =>
    if d.name = name then { d with status := st } :: rest
    else d :: setStatusByName rest name st

/-- `getDescriptor` (part_000 lines 261-264). -/
def getDescriptor (s : QueueState) (name : String) : Option Descriptor :=
  let idx := indexOf s.assets name
  if idx = -1 then none else s.assets[idx.toNat]?

/-- `getStatus` (part_000 lines 266-269); `none` is the JS `null` returned
for an absent asset. -/
def getStatus (s : QueueState) (name : String) : Option Status :=
  (getDescriptor s name).map (fun d => d.status)

/-- `isLoaded` (part_000 lines 271-273). -/
def isLoaded (s : QueueState) (name : String) : Bool :=
  decide (getStatus s name = some Status.LOAD_SUCCESS)

/-- `get` (part_000 lines 283-286). -/
def getValue (s : QueueState) (name : String) : JSVal :=
  match getDescriptor s name with
  | some d => d.value
  | none => JSVal.null

/-- `remove` (part_000 lines 300-339).  Returns the new state, the events
dispatched, and the JS return value (`asset.value`, or `null` when the asset
was not found). -/
def remove (name : String) (s : QueueState) : QueueState × List Ev × JSVal :=
  let assetIdx := indexOf s.assets name
  if assetIdx = -1 then (s, [], JSVal.null)
  else
    let asset := (s.assets[assetIdx.toNat]?).getD ⟨"", 0, JSVal.undef, Status.QUEUED⟩
    -- remove reference to the asset
    let assets1 := s.assets.eraseIdx assetIdx.toNat
    -- make sure it's not in our task list
    let taskIdx := indexOf s.tasks name
    let total1 := max 0 (s.totalItems - 1)
    let count1 := max 0 (s.loadCount - 1)
    let tasks1 := if taskIdx ≠ -1 then s.tasks.eraseIdx taskIdx.toNat else s.tasks
    let evs := if count1 = 0 then (if s.loading then [Ev.finished 0 0] else []) else []
    let loading1 := if count1 = 0 then false else s.loading
    ({ s with assets := assets1, tasks := tasks1, loadCount := count1,
              totalItems := total1, loading := loading1 }, evs, asset.value)

/-- `removeAll` (part_000 lines 341-353). -/
def removeAll (s : QueueState) : QueueState × List Ev :=
  let evs := if s.loading then [Ev.finished 0 0] else []
  ({ s with assets := [], tasks := [], loadCount := 0, totalItems := 0,
            loading := false }, evs)

/-- `invalidate` (part_000 lines 198-208): re-mark every asset as queued,
rebuild the task list from the asset list, and reset both counters to its
length. -/
def invalidate (s : QueueState) : QueueState :=
  let assets1 := s.assets.map (fun d => { d with status := Status.QUEUED })
  { s with assets := assets1, tasks := assets1,
           loadCount := (assets1.length : Int),
           totalItems := (assets1.length : Int) }

/-- `addAs` (part_000 lines 444-473).  `loader` is `none` when the JS caller
passes a falsy loader.  The factory call `loader.apply(this, args)` is
embedded as `env lid name`. -/
def addAs (env : Nat → String → RetObj) (loader : Option Nat) (name : String)
    (s : QueueState) : Except String (QueueState × JSVal) :=
  if name = "" then Except.error "no name specified to load"
  else
    match loader with
    | none => Except.error ("no loader specified for asset " ++ name)
    | some lid =>
      if indexOf s.assets name ≠ -1 then
        Except.error "asset already defined in asset manager"
      else
        let retObj := env lid name
        if retObj.hasLoadFn = false then
          Except.error "loader not implemented correctly; must return a 'load' function"
        else
          let d : Descriptor := ⟨name, retObj.loadId, retObj.value, Status.QUEUED⟩
          Except.ok ({ s with assets := s.assets ++ [d], tasks := s.tasks ++ [d],
                              loadCount := s.loadCount + 1,
                              totalItems := s.totalItems + 1 }, retObj.value)

/-- Registry lookup `this.loaders[ext]` guarded by `hasOwnProperty`. -/
def lookupLoader (loaders : List (String × Nat)) (key : String) : Option Nat :=
  match loaders.find? (fun p => p.1 = key) with
  | some p => some p.2
  | none => none

/-- `add` (part_000 lines 402-419): resolve a loader key from the data-URI
mime type or the file extension, look it up in the registry, and delegate to
`addAs`. -/
def add (env : Nat → String → RetObj) (name : String) (s : QueueState) :
    Except String (QueueState × JSVal) :=
  if name = "" then Except.error "No asset name specified for add()"
  else
    let ext := (__getDataType name).getD (__extension name)
    if ext = "" then
      Except.error ("Asset name does not have a file extension: " ++ name)
    else
      match lookupLoader s.loaders ext with
      | none => Except.error ("No known loader for extension " ++ ext ++ " in asset " ++ name)
      | some lid => addAs env (some lid) name s

/-- `__loadCallback` (part_000 lines 484-529) on its two declared JS
arguments.  `nameArg` is compared to descriptor names with JS strict
equality, so a non-string first argument never matches; `successArg` is
coerced with `success = success !== false` (line 487).  On failure the
status stored is the value of the absent property
`AssetLoader.Status.LOAD_FAILED`, i.e. `undefined`. -/
def __loadCallback (nameArg successArg : JSVal) (s : QueueState) :
    QueueState × List Ev :=
  let succ : Bool := match successArg with
    | JSVal.bool false => false
    | _ => true
  match nameArg with
  | JSVal.str name =>
    let assetIdx := indexOf s.assets name
    -- if the asset is not found, it was removed from the queue: ignore
    if assetIdx = -1 then (s, [])
    else
      let count1 := s.loadCount - 1
      let assets1 := setStatus s.assets assetIdx.toNat
        (if succ then Status.LOAD_SUCCESS else Status.jsUndefined)
      let current := s.totalItems - count1
      let total := s.totalItems
      let evs :=
        (if succ then [] else [Ev.error name current total])
          ++ [Ev.progress name current total]
          ++ (if count1 = 0 then [Ev.finished current total] else [])
      let loading1 := if count1 = 0 then false else s.loading
      ({ s with assets := assets1, loadCount := count1, loading := loading1 }, evs)
  | _ => (s, [])

/-- Argument list access of a JS function body: missing arguments read as
`undefined`. -/
def argAt (args : List JSVal) (i : Nat) : JSVal :=
  args.getD i JSVal.undef

/-- `__loadCallback` applied to a full JS argument list, as a bound-function
invocation delivers it. -/
def __loadCallbackJS (args : List JSVal) (s : QueueState) : QueueState × List Ev :=
  __loadCallback (argAt args 0) (argAt args 1) s

/-- Invocation of a callback produced by `bind` in `update`: the bound
receiver and leading arguments are fixed, and any arguments of the call
itself are appended after them. -/
def callBound (cb : BoundCB) (callArgs : List JSVal) (s : QueueState) :
    QueueState × List Ev :=
  __loadCallbackJS ([JSVal.str cb.name, JSVal.bool cb.success] ++ callArgs) s

/-- `update` (part_000 lines 539-565).  Returns the new state, the events
dispatched, the loader invocation performed (if any), and the boolean
return value `__loadCount === 0`.  The load function itself returns without
synchronously invoking its callbacks (see the header comment). -/
def update (s : QueueState) : QueueState × List Ev × Option StartedTask × Bool :=
  match s.tasks with
  | [] => (s, [], none, decide (s.loadCount = 0))
  | t :: rest =>
    -- if we still haven't popped any from the assets list...
    let fire := (t :: rest).length = s.assets.length
    let evs := if fire then [Ev.started 0 s.totalItems] else []
    let loading1 := if fire then true else s.loading
    let s1 := { s with tasks := rest, loading := loading1 }
    (s1, evs, some ⟨t.name, t.loadFunc, ⟨t.name, true⟩, ⟨t.name, false⟩⟩,
      decide (s1.loadCount = 0))

/-- `load` (part_000 lines 584-588): repeated `update` until the task list
is empty.  Each `update` on a non-empty task list pops exactly one task, so
`s.tasks.length` is enough fuel. -/
def loadAux : Nat → QueueState → QueueState × List Ev
  | 0, s => (s, [])
  | fuel + 1, s =>
    match s.tasks with
    | [] => (s, [])
    | _ :: _ =>
      let r := update s
      let r2 := loadAux fuel r.1
      (r2.1, r.2.1 ++ r2.2)

/-- `load`: drain the task list by repeated `update`. -/
def load (s : QueueState) : QueueState × List Ev :=
  loadAux s.tasks.length s

/-- One key-value write `loaders[key] = fid` on the registry object. -/
def setKey (l : List (String × Nat)) (key : String) (fid : Nat) :
    List (String × Nat) :=
  if l.any (fun p => p.1 = key) then
    l.map (fun p => if p.1 = key then (key, fid) else p)
  else l ++ [(key, fid)]

/-- Loop body of the module-level `registerLoader` helper (part_000 lines
5-14): install the loader under each extension and, when a media type is
given, also under `mediaType ++ "/" ++ extension`. -/
def registerExts (fid : Nat) (mediaType : Option String) :
    List String → List (String × Nat) → List (String × Nat)
  | [], l => l
  | e :: rest, l =>
    let l1 := setKey l e fid
    let l2 := match mediaType with
      | some m => setKey l1 (m ++ "/" ++ e) fid
      | none => l1
    registerExts fid mediaType rest l2

/-- Loader-factory id of the bundled ImageLoader. -/
def imageLoaderId : Nat := 0

/-- State built by the `AssetLoader` constructor: empty lists, zero counters,
and a registry holding the ImageLoader registrations (`extensions`
`png, gif, jpg, jpeg` with `mediaType` `image`, part_002 lines 33-35).
`commonLoaders` is empty by default. -/
def initState : QueueState :=
  { assets := [], tasks := [], loadCount := 0, totalItems := 0,
    loading := false,
    loaders := registerExts imageLoaderId (some "image")
      ["png", "gif", "jpg", "jpeg"] [] }

/-- Loader environment in which every factory returns a well-formed loader
object (a callable `load` function and a `null` placeholder value). -/
def simpleEnv : Nat → String → RetObj :=
  fun _ _ => ⟨true, 0, JSVal.null⟩

/-- Public operations and completion-callback deliveries, for traces over a
queue instance. -/
inductive Op where
  | add (name : String)
  | addAs (lid : Nat) (name : String)
  | remove (name : String)
  | removeAll
  | update
  | invalidate
  | load
  | callback (name : String) (success : Bool)
deriving DecidableEq, Repr

/-- Effect of one trace operation: resulting state and dispatched events.
An operation that throws leaves the state unchanged (every throw in the
source precedes any mutation). -/
def applyOpE (env : Nat → String → RetObj) : Op → QueueState → QueueState × List Ev
  | Op.add name, s =>
    match add env name s with
    | Except.ok (s1, _) => (s1, [])
    | Except.error _ => (s, [])
  | Op.addAs lid name, s =>
    match addAs env (some lid) name s with
    | Except.ok (s1, _) => (s1, [])
    | Except.error _ => (s, [])
  | Op.remove name, s =>
    let r := remove name s
    (r.1, r.2.1)
  | Op.removeAll, s => removeAll s
  | Op.update, s =>
    let r := update s
    (r.1, r.2.1)
  | Op.invalidate, s => (invalidate s, [])
  | Op.load, s => load s
  | Op.callback name success, s =>
    __loadCallback (JSVal.str name) (JSVal.bool success) s

/-- State after one trace operation. -/
def applyOp (env : Nat → String → RetObj) (op : Op) (s : QueueState) : QueueState :=
  (applyOpE env op s).1

/-- State after a trace of operations. -/
def runOps (env : Nat → String → RetObj) : List Op → QueueState → QueueState
  | [], s => s
  | op :: rest, s => runOps env rest (applyOp env op s)

/-- Events dispatched along a trace of operations, in order. -/
def runEvents (env : Nat → String → RetObj) : List Op → QueueState → List Ev
  | [], _ => []
  | op :: rest, s => (applyOpE env op s).2 ++ runEvents env rest (applyOp env op s)

/-- Allowed forward movement of one descriptor's status under a single
queue operation other than `invalidate`: unchanged, or from `QUEUED`
directly to the outcome stored by `__loadCallback` (`LOAD_SUCCESS` on
success, the undefined `Status.LOAD_FAILED` value on failure). -/
def statusStepOK (a b : Status) : Prop :=
  a = b ∨ (a = Status.QUEUED ∧ (b = Status.LOAD_SUCCESS ∨ b = Status.jsUndefined))

/- Helper lemmas relating the positional list operations of the source
(`indexOf` with `splice` / positional reads and writes) to their by-name
companions, and characterizing the assets list after each operation. -/

theorem indexOf_nonneg (l : List Descriptor) (name : String)
    (h : indexOf l name ≠ -1) : 0 ≤ indexOf l name := by
  induction l with
  | nil => simp [indexOf] at h
  | cons d rest ih =>
    simp only [indexOf] at h ⊢
    by_cases hd : d.name = name
    · simp [hd]
    · simp only [if_neg hd] at h ⊢
      by_cases hr : indexOf rest name = -1
      · simp [hr] at h
      · have h0 := ih hr
        simp only [if_neg hr]
        omega

theorem indexOf_eq_neg_one_iff (l : List Descriptor) (name : String) :
    indexOf l name = -1 ↔ findByName l name = none := by
  induction l with
  | nil => simp [indexOf, findByName]
  | cons d rest ih =>
    by_cases hd : d.name = name
    · simp [indexOf, findByName, hd]
    · simp only [indexOf, findByName, if_neg hd]
      by_cases hr : indexOf rest name = -1
      · simp [hr, ih.mp hr]
      · have h0 := indexOf_nonneg rest name hr
        have h1 : ¬ findByName rest name = none := fun hn => hr (ih.mpr hn)
        simp only [if_neg hr]
        constructor
        · intro he; omega
        · intro he; exact absurd he h1

theorem getElem_indexOf (l : List Descriptor) (name : String)
    (h : indexOf l name ≠ -1) :
    l[(indexOf l name).toNat]? = findByName l name := by
  induction l with
  | nil => simp [indexOf] at h
  | cons d rest ih =>
    by_cases hd : d.name = name
    · simp [indexOf, findByName, hd]
    · simp only [indexOf, findByName, if_neg hd] at h ⊢
      by_cases hr : indexOf rest name = -1
      · simp [hr] at h
      · have h0 := indexOf_nonneg rest name hr
        simp only [if_neg hr]
        have ht : (indexOf rest name + 1).toNat = (indexOf rest name).toNat + 1 := by
          omega
        rw [ht]
        simpa using ih hr

theorem getDescriptor_eq_findByName (s : QueueState) (name : String) :
    getDescriptor s name = findByName s.assets name := by
  unfold getDescriptor
  by_cases h : indexOf s.assets name = -1
  · simp [h, (indexOf_eq_neg_one_iff _ _).mp h]
  · simp only [if_neg h]
    exact getElem_indexOf s.assets name h

theorem eraseIdx_indexOf (l : List Descriptor) (name : String)
    (h : indexOf l name ≠ -1) :
    l.eraseIdx (indexOf l name).toNat = eraseFirstByName l name := by
  induction l with
  | nil => simp [indexOf] at h
  | cons d rest ih =>
    by_cases hd : d.name = name
    · simp [indexOf, eraseFirstByName, hd]
    · simp only [indexOf, eraseFirstByName, if_neg hd] at h ⊢
      by_cases hr : indexOf rest name = -1
      · simp [hr] at h
      · have h0 := indexOf_nonneg rest name hr
        simp only [if_neg hr]
        have ht : (indexOf rest name + 1).toNat = (indexOf rest name).toNat + 1 := by
          omega
        rw [ht]
        simp [List.eraseIdx, ih hr]

theorem setStatus_indexOf (l : List Descriptor) (name : String) (st : Status)
    (h : indexOf l name ≠ -1) :
    setStatus l (indexOf l name).toNat st = setStatusByName l name st := by
  induction l with
  | nil => simp [indexOf] at h
  | cons d rest ih =>
    by_cases hd : d.name = name
    · simp [indexOf, setStatus, setStatusByName, hd]
    · simp only [indexOf, setStatusByName, if_neg hd] at h ⊢
      by_cases hr : indexOf rest name = -1
      · simp [hr] at h
      · have h0 := indexOf_nonneg rest name hr
        simp only [if_neg hr]
        have ht : (indexOf rest name + 1).toNat = (indexOf rest name).toNat + 1 := by
          omega
        rw [ht]
        simp [setStatus, ih hr]

theorem findByName_append_some (l l2 : List Descriptor) (name : String)
    (d : Descriptor) (h : findByName l name = some d) :
    findByName (l ++ l2) name = some d := by
  induction l with
  | nil => simp [findByName] at h
  | cons e rest ih =>
    by_cases he : e.name = name
    · simp only [findByName, if_pos he] at h
      simp [findByName, he, h]
    · simp only [findByName, if_neg he] at h
      simp only [List.cons_append, findByName, if_neg he]
      exact ih h

theorem findByName_eq_none_of_not_mem (l : List Descriptor) (n : String)
    (h : n ∉ l.map Descriptor.name) :
    findByName l n = none := by
  induction l with
  | nil => rfl
  | cons d rest ih =>
    simp only [List.map_cons, List.mem_cons] at h
    push_neg at h
    have hd : ¬ d.name = n := fun he => h.1 he.symm
    simp [findByName, hd, ih h.2]

theorem findByName_eraseFirst_ne (l : List Descriptor) (n m : String)
    (h : m ≠ n) :
    findByName (eraseFirstByName l n) m = findByName l m := by
  induction l with
  | nil => rfl
  | cons d rest ih =>
    by_cases hd : d.name = n
    · have hm : ¬ d.name = m := by rw [hd]; exact fun hh => h hh.symm
      simp [eraseFirstByName, findByName, hd, hm, Ne.symm h]
    · by_cases hm : d.name = m
      · simp [eraseFirstByName, findByName, hd, hm, h]
      · simp [eraseFirstByName, findByName, hd, hm, h, ih]

theorem findByName_eraseFirst_self (l : List Descriptor) (n : String)
    (hnd : (l.map Descriptor.name).Nodup) :
    findByName (eraseFirstByName l n) n = none := by
  induction l with
  | nil => rfl
  | cons d rest ih =>
    simp only [List.map_cons, List.nodup_cons] at hnd
    by_cases hd : d.name = n
    · have hmem : n ∉ rest.map Descriptor.name := by rw [← hd]; exact hnd.1
      simp [eraseFirstByName, hd, findByName_eq_none_of_not_mem rest n hmem]
    · simp [eraseFirstByName, findByName, hd, ih hnd.2]

theorem findByName_setStatus_ne (l : List Descriptor) (n m : String) (st : Status)
    (h : m ≠ n) :
    findByName (setStatusByName l n st) m = findByName l m := by
  induction l with
  | nil => rfl
  | cons d rest ih =>
    by_cases hd : d.name = n
    · have hm : ¬ d.name = m := by rw [hd]; exact fun hh => h hh.symm
      simp [setStatusByName, findByName, hd, hm, Ne.symm h]
    · by_cases hm : d.name = m
      · simp [setStatusByName, findByName, hd, hm, h]
      · simp [setStatusByName, findByName, hd, hm, h, ih]

theorem findByName_setStatus_self (l : List Descriptor) (n : String) (st : Status) :
    findByName (setStatusByName l n st) n
      = (findByName l n).map (fun d => { d with status := st }) := by
  induction l with
  | nil => rfl
  | cons d rest ih =>
    by_cases hd : d.name = n
    · simp [setStatusByName, findByName, hd]
    · simp [setStatusByName, findByName, hd, ih]

theorem update_assets (s : QueueState) : (update s).1.assets = s.assets := by
  obtain ⟨a, ts, lc, ti, lo, ld⟩ := s
  cases ts <;> rfl

theorem loadAux_assets (fuel : Nat) (s : QueueState) :
    (loadAux fuel s).1.assets = s.assets := by
  induction fuel generalizing s with
  | zero => rfl
  | succ n ih =>
    unfold loadAux
    cases htasks : s.tasks with
    | nil => rfl
    | cons t rest =>
      simp only []
      rw [ih, update_assets]

theorem addAs_ok_assets (env : Nat → String → RetObj) (loader : Option Nat)
    (name : String) (s s1 : QueueState) (v : JSVal)
    (h : addAs env loader name s = Except.ok (s1, v)) :
    ∃ d, s1.assets = s.assets ++ [d] ∧ d.status = Status.QUEUED ∧
      findByName s.assets d.name = none := by
  simp only [addAs] at h
  split at h
  · simp at h
  · split at h
    · simp at h
    · split at h
      · simp at h
      · rename_i hdup
        split at h
        · simp at h
        · simp only [Except.ok.injEq, Prod.mk.injEq] at h
          obtain ⟨hs, _⟩ := h
          subst hs
          refine ⟨_, rfl, rfl, ?_⟩
          show findByName s.assets name = none
          rw [← indexOf_eq_neg_one_iff]
          exact not_not.mp hdup

theorem add_ok_assets (env : Nat → String → RetObj) (name : String)
    (s s1 : QueueState) (v : JSVal)
    (h : add env name s = Except.ok (s1, v)) :
    ∃ d, s1.assets = s.assets ++ [d] ∧ d.status = Status.QUEUED ∧
      findByName s.assets d.name = none := by
  simp only [add] at h
  split at h
  · simp at h
  · split at h
    · simp at h
    · split at h
      · simp at h
      · exact addAs_ok_assets env _ name s s1 v h

theorem not_mem_of_findByName_none (l : List Descriptor) (n : String)
    (h : findByName l n = none) : n ∉ l.map Descriptor.name := by
  induction l with
  | nil => simp
  | cons d rest ih =>
    simp only [findByName] at h
    by_cases hd : d.name = n
    · rw [if_pos hd] at h
      exact Option.noConfusion h
    · rw [if_neg hd] at h
      simp only [List.map_cons, List.mem_cons]
      push_neg
      exact ⟨fun he => hd he.symm, ih h⟩

theorem findByName_append_none (l l2 : List Descriptor) (name : String)
    (h : findByName l name = none) :
    findByName (l ++ l2) name = findByName l2 name := by
  induction l with
  | nil => simp [findByName]
  | cons e rest ih =>
    simp only [findByName] at h
    by_cases he : e.name = name
    · rw [if_pos he] at h
      exact Option.noConfusion h
    · rw [if_neg he] at h
      simp only [List.cons_append, findByName, if_neg he]
      exact ih h

theorem map_name_setStatusByName (l : List Descriptor) (n : String) (st : Status) :
    (setStatusByName l n st).map Descriptor.name = l.map Descriptor.name := by
  induction l with
  | nil => rfl
  | cons d rest ih =>
    by_cases hd : d.name = n
    · simp [setStatusByName, hd]
    · simp [setStatusByName, hd, ih]

theorem map_name_requeue (l : List Descriptor) :
    (l.map (fun d => { d with status := Status.QUEUED })).map Descriptor.name
      = l.map Descriptor.name := by
  induction l with
  | nil => rfl
  | cons d rest ih => simp [ih]

theorem findByName_requeue (l : List Descriptor) (n : String) :
    findByName (l.map (fun d => { d with status := Status.QUEUED })) n
      = (findByName l n).map (fun d => { d with status := Status.QUEUED }) := by
  induction l with
  | nil => rfl
  | cons d rest ih =>
    by_cases hd : d.name = n
    · simp [findByName, hd]
    · simp [findByName, hd, ih]

theorem map_name_eraseFirst_sublist (l : List Descriptor) (n : String) :
    ((eraseFirstByName l n).map Descriptor.name).Sublist (l.map Descriptor.name) := by
  induction l with
  | nil => simp [eraseFirstByName]
  | cons d rest ih =>
    by_cases hd : d.name = n
    · simp only [eraseFirstByName, if_pos hd, List.map_cons]
      exact (List.Sublist.refl _).cons _
    · simp only [eraseFirstByName, if_neg hd, List.map_cons]
      exact ih.cons₂ _

theorem remove_not_found (name : String) (s : QueueState)
    (h : indexOf s.assets name = -1) :
    remove name s = (s, [], JSVal.null) := by
  unfold remove
  rw [if_pos h]

theorem remove_assets_of_found (name : String) (s : QueueState)
    (h : indexOf s.assets name ≠ -1) :
    (remove name s).1.assets = eraseFirstByName s.assets name := by
  unfold remove
  rw [if_neg h]
  exact eraseIdx_indexOf s.assets name h

theorem loadCallback_not_found (name : String) (arg : JSVal) (s : QueueState)
    (h : indexOf s.assets name = -1) :
    __loadCallback (JSVal.str name) arg s = (s, []) := by
  unfold __loadCallback
  simp [h]

theorem loadCallback_found_assets (name : String) (succ : Bool) (s : QueueState)
    (h : indexOf s.assets name ≠ -1) :
    (__loadCallback (JSVal.str name) (JSVal.bool succ) s).1.assets
      = setStatusByName s.assets name
          (if succ then Status.LOAD_SUCCESS else Status.jsUndefined) := by
  cases succ <;>
    simp [__loadCallback, h, setStatus_indexOf s.assets name _ h]

theorem getStatus_eq_findByName (s : QueueState) (name : String) :
    getStatus s name = (findByName s.assets name).map (fun d => d.status) := by
  unfold getStatus
  rw [getDescriptor_eq_findByName]

theorem indexOf_ne_of_getDescriptor (s : QueueState) (name : String)
    (h : getDescriptor s name ≠ none) : indexOf s.assets name ≠ -1 := by
  intro he
  exact h (by
    rw [getDescriptor_eq_findByName]
    exact (indexOf_eq_neg_one_iff _ _).mp he)

/-- C1: the claim says that when a loader invokes the failure callback, the
completion handler stores the `LOAD_FAIL` member of the status enumeration,
so that `getStatus` afterwards returns that constant.  On the trace that
adds `"a.png"`, starts it with `update` and delivers the failure callback,
the code instead stores the value of the absent property
`AssetLoader.Status.LOAD_FAILED`, i.e. the JS `undefined` value, and
`getStatus` returns that value, not `LOAD_FAIL`. -/
theorem C1_failed_status_is_undefined :
    getStatus (runOps simpleEnv
        [Op.addAs 0 "a.png", Op.update, Op.callback "a.png" false] initState)
        "a.png"
      = some Status.jsUndefined ∧
    Status.jsUndefined ≠ Status.LOAD_FAIL := by
  exact ⟨by decide, by decide⟩

/-- C2: the claim says `remaining` and `total` stay nonnegative on every
operation sequence, and in particular that a completion callback for a
still-present asset after removals never drives `remaining` below zero.  On
the trace that adds two assets, starts both, completes the first, removes
the completed first asset, and then receives the second asset's completion
callback, `__loadCount` (the value behind `remaining`) reaches `-1`:
`remove` decrements the counter although the removed asset was already
settled, and the in-flight asset's callback decrements it again with no
floor. -/
theorem C2_remaining_goes_negative :
    (runOps simpleEnv
        [Op.addAs 0 "a.png", Op.addAs 0 "b.png", Op.update, Op.update,
         Op.callback "a.png" true, Op.remove "a.png", Op.callback "b.png" true]
        initState).loadCount = -1 := by
  decide

/-- C3 counterexample: the claim says the started-firing condition holds
only when no task has been started since the last full reset, so that
`started` fires at most once per load cycle.  On the trace that adds two
assets, starts one, removes the started one and calls `update` again, the
pending list length re-equals the asset list length, and `started` fires a
second time in the same cycle (with the then-current total). -/
theorem C3_started_twice_in_one_cycle :
    runEvents simpleEnv
        [Op.addAs 0 "a.png", Op.addAs 0 "b.png", Op.update,
         Op.remove "a.png", Op.update] initState
      = [Ev.started 0 2, Ev.started 0 1] := by
  decide

/-- C3 amended: `update()` fires the started event, with payload current 0
and total the `__totalItems` counter, exactly when the pending task list is
non-empty and its length equals the length of the asset list; removals can
make this condition hold again after tasks have been started, so it is not
limited to one firing per load cycle. -/
theorem C3_started_iff_lengths_equal (s : QueueState) :
    (update s).2.1
      = if s.tasks ≠ [] ∧ s.tasks.length = s.assets.length
        then [Ev.started 0 s.totalItems] else [] := by
  obtain ⟨a, ts, lc, ti, lo, ld⟩ := s
  cases ts with
  | nil => simp [update]
  | cons t rest =>
    by_cases h : (t :: rest).length = a.length
    · simp [update, h]
    · simp [update, h]

/-- C4 counterexample: the claim says any name beginning with `data:` and
containing no comma fails `add` for every registry state.  The name
`"data:a.png"` begins with `data:` and has no comma, yet on a freshly
constructed queue (whose registry holds the default ImageLoader entries)
`add` succeeds and appends a descriptor to the queue. -/
theorem C4_malformed_data_uri_can_add :
    (("data:a.png".toList.take 5).map Char.toLower = "data:".toList) ∧
    containsChar ("data:a.png".toList.drop 5) ',' = false ∧
    (add simpleEnv "data:a.png" initState).toOption.map
        (fun p => p.1.assets.length) = some 1 := by
  exact ⟨by decide, by decide, by decide⟩

/-- C4 amended: for a name beginning with `data:` (first five characters,
case-insensitively) and containing no comma after that, mime-type
resolution (`__getDataType`) yields no key, and `add` behaves exactly as
plain file-extension resolution dictates: it raises the missing-extension
error when the fallback yields no extension, raises the no-loader error
when the extension has no registry entry, and otherwise delegates to
`addAs` with the resolved loader (so the call can still succeed).  Stated
as an equality, so both directions hold for every registry and loader
environment. -/
theorem C4_malformed_data_uri_falls_back (env : Nat → String → RetObj)
    (s : QueueState) (name : String)
    (h1 : (name.toList.take 5).map Char.toLower = "data:".toList)
    (h2 : containsChar (name.toList.drop 5) ',' = false) :
    __getDataType name = none ∧
    add env name s
      = (if __extension name = "" then
          Except.error ("Asset name does not have a file extension: " ++ name)
         else
          match lookupLoader s.loaders (__extension name) with
          | none => Except.error ("No known loader for extension "
              ++ __extension name ++ " in asset " ++ name)
          | some lid => addAs env (some lid) name s) := by
  have hne : name ≠ "" := by
    intro he
    subst he
    simp at h1
  have hdt : __getDataType name = none := by
    simp only [__getDataType]
    rw [if_pos h1, if_pos h2]
  exact ⟨hdt, by simp only [add, if_neg hne, hdt, Option.getD_none]⟩

/-- C4 amended, witness: `"data:foo"` has no comma and no file-extension
fallback, so `add` rejects it on a fresh queue; `"data:a.png"` has no comma
but its fallback resolves to the registered `png` loader, so `add`
delegates to `addAs` with that loader. -/
theorem C4_malformed_data_uri_falls_back_witness :
    (__getDataType "data:foo" = none ∧
     add simpleEnv "data:foo" initState
       = Except.error "Asset name does not have a file extension: data:foo") ∧
    add simpleEnv "data:a.png" initState
      = addAs simpleEnv (some 0) "data:a.png" initState :=
  ⟨⟨(C4_malformed_data_uri_falls_back simpleEnv initState "data:foo"
       (by decide) (by decide)).1,
    ((C4_malformed_data_uri_falls_back simpleEnv initState "data:foo"
       (by decide) (by decide)).2).trans (by rfl)⟩,
   ((C4_malformed_data_uri_falls_back simpleEnv initState "data:a.png"
       (by decide) (by decide)).2).trans (by rfl)⟩

/-- C5 counterexample: the claim says a descriptor whose start function has
been invoked by `update()` but whose completion callback has not yet fired
has status `Loading`.  After adding `"a.png"` and starting it with
`update`, its status is still `QUEUED`: `update` never assigns the
`LOADING` member. -/
theorem C5_inflight_descriptor_stays_queued :
    getStatus (runOps simpleEnv [Op.addAs 0 "a.png", Op.update] initState)
        "a.png"
      = some Status.QUEUED ∧
    Status.QUEUED ≠ Status.LOADING := by
  exact ⟨by decide, by decide⟩

/-- Forward-only status movement under one operation: helper for the C5
theorem.  Under any single operation other than `invalidate` (with unique
asset names, and with completion callbacks restricted by the loader
contract to assets that are unsettled or already removed), a descriptor's
status either stays unchanged or moves from `QUEUED` directly to the stored
outcome. -/
theorem status_forward_aux (env : Nat → String → RetObj) (op : Op)
    (s : QueueState) (name : String) (st st1 : Status)
    (hop : op ≠ Op.invalidate)
    (hnd : (s.assets.map Descriptor.name).Nodup)
    (hcb : ∀ n b, op = Op.callback n b →
      getStatus s n = some Status.QUEUED ∨ getStatus s n = none)
    (h1 : getStatus s name = some st)
    (h2 : getStatus (applyOp env op s) name = some st1) :
    statusStepOK st st1 := by
  rw [getStatus_eq_findByName] at h1 h2
  obtain ⟨d0, hd0, hst⟩ : ∃ d0, findByName s.assets name = some d0 ∧ d0.status = st := by
    cases hf : findByName s.assets name with
    | none => rw [hf] at h1; simp at h1
    | some d => rw [hf] at h1; simp at h1; exact ⟨d, rfl, h1⟩
  cases op with
  | add n =>
    cases hadd : add env n s with
    | error e =>
      have hs : applyOp env (Op.add n) s = s := by
        simp only [applyOp, applyOpE, hadd]
      rw [hs, hd0] at h2
      simp at h2
      exact Or.inl (hst.symm.trans h2)
    | ok r =>
      obtain ⟨s1, v⟩ := r
      obtain ⟨d, hassets, -, -⟩ := add_ok_assets env n s s1 v hadd
      have hs : applyOp env (Op.add n) s = s1 := by
        simp only [applyOp, applyOpE, hadd]
      rw [hs, hassets, findByName_append_some s.assets [d] name d0 hd0] at h2
      simp at h2
      exact Or.inl (hst.symm.trans h2)
  | addAs lid n =>
    cases hadd : addAs env (some lid) n s with
    | error e =>
      have hs : applyOp env (Op.addAs lid n) s = s := by
        simp only [applyOp, applyOpE, hadd]
      rw [hs, hd0] at h2
      simp at h2
      exact Or.inl (hst.symm.trans h2)
    | ok r =>
      obtain ⟨s1, v⟩ := r
      obtain ⟨d, hassets, -, -⟩ := addAs_ok_assets env (some lid) n s s1 v hadd
      have hs : applyOp env (Op.addAs lid n) s = s1 := by
        simp only [applyOp, applyOpE, hadd]
      rw [hs, hassets, findByName_append_some s.assets [d] name d0 hd0] at h2
      simp at h2
      exact Or.inl (hst.symm.trans h2)
  | remove n =>
    have hs : applyOp env (Op.remove n) s = (remove n s).1 := rfl
    by_cases hidx : indexOf s.assets n = -1
    · rw [hs, remove_not_found n s hidx, hd0] at h2
      simp at h2
      exact Or.inl (hst.symm.trans h2)
    · have hassets := remove_assets_of_found n s hidx
      rw [hs, hassets] at h2
      by_cases hname : name = n
      · subst hname
        rw [findByName_eraseFirst_self s.assets name hnd] at h2
        simp at h2
      · rw [findByName_eraseFirst_ne s.assets n name hname, hd0] at h2
        simp at h2
        exact Or.inl (hst.symm.trans h2)
  | removeAll =>
    have hs : (applyOp env Op.removeAll s).assets = [] := rfl
    rw [hs] at h2
    simp [findByName] at h2
  | update =>
    have hs : (applyOp env Op.update s).assets = s.assets := update_assets s
    rw [hs, hd0] at h2
    simp at h2
    exact Or.inl (hst.symm.trans h2)
  | invalidate => exact absurd rfl hop
  | load =>
    have hs : (applyOp env Op.load s).assets = s.assets :=
      loadAux_assets s.tasks.length s
    rw [hs, hd0] at h2
    simp at h2
    exact Or.inl (hst.symm.trans h2)
  | callback n b =>
    rcases hcb n b rfl with hq | habs
    · rw [getStatus_eq_findByName] at hq
      obtain ⟨dn, hdn, hdnst⟩ : ∃ dn, findByName s.assets n = some dn ∧
          dn.status = Status.QUEUED := by
        cases hf : findByName s.assets n with
        | none => rw [hf] at hq; simp at hq
        | some d => rw [hf] at hq; simp at hq; exact ⟨d, rfl, hq⟩
      have hidx : indexOf s.assets n ≠ -1 := by
        intro he
        exact Option.noConfusion
          (((indexOf_eq_neg_one_iff s.assets n).mp he).symm.trans hdn)
      have hassets : (applyOp env (Op.callback n b) s).assets
          = setStatusByName s.assets n
              (if b then Status.LOAD_SUCCESS else Status.jsUndefined) :=
        loadCallback_found_assets n b s hidx
      by_cases hname : name = n
      · subst hname
        rw [hassets, findByName_setStatus_self, hd0] at h2
        simp at h2
        have hd0dn : d0 = dn := by
          have := hd0.symm.trans hdn
          simpa using this
        have hstq : st = Status.QUEUED := by
          rw [← hst, hd0dn, hdnst]
        refine Or.inr ⟨hstq, ?_⟩
        cases b
        · simp at h2
          exact Or.inr h2.symm
        · simp at h2
          exact Or.inl h2.symm
      · rw [hassets, findByName_setStatus_ne s.assets n name _ hname, hd0] at h2
        simp at h2
        exact Or.inl (hst.symm.trans h2)
    · rw [getStatus_eq_findByName] at habs
      have hidx : indexOf s.assets n = -1 := by
        rw [indexOf_eq_neg_one_iff]
        cases hf : findByName s.assets n with
        | none => rfl
        | some d => rw [hf] at habs; simp at habs
      have hs : applyOp env (Op.callback n b) s = s := by
        show (__loadCallback (JSVal.str n) (JSVal.bool b) s).1 = s
        rw [loadCallback_not_found n (JSVal.bool b) s hidx]
      rw [hs, hd0] at h2
      simp at h2
      exact Or.inl (hst.symm.trans h2)

/-- One operation preserves the trace invariant for a name `n` that this
operation does not complete: asset names stay unique, and every descriptor
found under `n` still has status `QUEUED`. -/
theorem step_preserves_inv (env : Nat → String → RetObj) (op : Op)
    (s : QueueState) (n : String)
    (hnd : (s.assets.map Descriptor.name).Nodup)
    (hnocb : ∀ b, op ≠ Op.callback n b)
    (hq : ∀ d, findByName s.assets n = some d → d.status = Status.QUEUED) :
    ((applyOp env op s).assets.map Descriptor.name).Nodup ∧
    (∀ d, findByName (applyOp env op s).assets n = some d →
      d.status = Status.QUEUED) := by
  cases op with
  | add m =>
    cases hadd : add env m s with
    | error e =>
      have hA : applyOp env (Op.add m) s = s := by
        simp only [applyOp, applyOpE, hadd]
      rw [hA]
      exact ⟨hnd, hq⟩
    | ok r =>
      obtain ⟨s1, v⟩ := r
      obtain ⟨d, hassets, hdq, habs⟩ := add_ok_assets env m s s1 v hadd
      have hA : applyOp env (Op.add m) s = s1 := by
        simp only [applyOp, applyOpE, hadd]
      rw [hA, hassets]
      constructor
      · rw [List.map_append, List.nodup_append]
        refine ⟨hnd, by simp, ?_⟩
        intro x hx1 hx2
        simp only [List.map_cons, List.map_nil, List.mem_cons,
          List.not_mem_nil, or_false] at hx2
        subst hx2
        exact not_mem_of_findByName_none s.assets d.name habs hx1
      · intro e he
        cases hfl : findByName s.assets n with
        | some e0 =>
          rw [findByName_append_some s.assets [d] n e0 hfl] at he
          cases he
          exact hq _ hfl
        | none =>
          rw [findByName_append_none s.assets [d] n hfl] at he
          simp only [findByName] at he
          by_cases hdn : d.name = n
          · rw [if_pos hdn] at he
            cases he
            exact hdq
          · rw [if_neg hdn] at he
            exact Option.noConfusion he
  | addAs lid m =>
    cases hadd : addAs env (some lid) m s with
    | error e =>
      have hA : applyOp env (Op.addAs lid m) s = s := by
        simp only [applyOp, applyOpE, hadd]
      rw [hA]
      exact ⟨hnd, hq⟩
    | ok r =>
      obtain ⟨s1, v⟩ := r
      obtain ⟨d, hassets, hdq, habs⟩ := addAs_ok_assets env (some lid) m s s1 v hadd
      have hA : applyOp env (Op.addAs lid m) s = s1 := by
        simp only [applyOp, applyOpE, hadd]
      rw [hA, hassets]
      constructor
      · rw [List.map_append, List.nodup_append]
        refine ⟨hnd, by simp, ?_⟩
        intro x hx1 hx2
        simp only [List.map_cons, List.map_nil, List.mem_cons,
          List.not_mem_nil, or_false] at hx2
        subst hx2
        exact not_mem_of_findByName_none s.assets d.name habs hx1
      · intro e he
        cases hfl : findByName s.assets n with
        | some e0 =>
          rw [findByName_append_some s.assets [d] n e0 hfl] at he
          cases he
          exact hq _ hfl
        | none =>
          rw [findByName_append_none s.assets [d] n hfl] at he
          simp only [findByName] at he
          by_cases hdn : d.name = n
          · rw [if_pos hdn] at he
            cases he
            exact hdq
          · rw [if_neg hdn] at he
            exact Option.noConfusion he
  | remove m =>
    have hA : applyOp env (Op.remove m) s = (remove m s).1 := rfl
    by_cases hidx : indexOf s.assets m = -1
    · rw [hA, remove_not_found m s hidx]
      exact ⟨hnd, hq⟩
    · have hassets := remove_assets_of_found m s hidx
      rw [hA, hassets]
      refine ⟨List.Nodup.sublist (map_name_eraseFirst_sublist s.assets m) hnd, ?_⟩
      by_cases hmn : m = n
      · subst hmn
        intro e he
        rw [findByName_eraseFirst_self s.assets m hnd] at he
        exact Option.noConfusion he
      · intro e he
        rw [findByName_eraseFirst_ne s.assets m n (fun hh => hmn hh.symm)] at he
        exact hq e he
  | removeAll =>
    have hA : (applyOp env Op.removeAll s).assets = [] := rfl
    rw [hA]
    refine ⟨by simp, ?_⟩
    intro e he
    exact Option.noConfusion he
  | update =>
    have hA : (applyOp env Op.update s).assets = s.assets := update_assets s
    rw [hA]
    exact ⟨hnd, hq⟩
  | invalidate =>
    have hA : (applyOp env Op.invalidate s).assets
        = s.assets.map (fun d => { d with status := Status.QUEUED }) := rfl
    rw [hA]
    constructor
    · rw [map_name_requeue]
      exact hnd
    · intro e he
      rw [findByName_requeue] at he
      cases hf : findByName s.assets n with
      | none =>
        rw [hf] at he
        exact Option.noConfusion he
      | some e0 =>
        rw [hf] at he
        simp only [Option.map_some'] at he
        cases he
        rfl
  | load =>
    have hA : (applyOp env Op.load s).assets = s.assets :=
      loadAux_assets s.tasks.length s
    rw [hA]
    exact ⟨hnd, hq⟩
  | callback m b =>
    have hmn : m ≠ n := by
      intro he
      subst he
      exact (hnocb b) rfl
    by_cases hidx : indexOf s.assets m = -1
    · have hA : applyOp env (Op.callback m b) s = s := by
        show (__loadCallback (JSVal.str m) (JSVal.bool b) s).1 = s
        rw [loadCallback_not_found m (JSVal.bool b) s hidx]
      rw [hA]
      exact ⟨hnd, hq⟩
    · have hassets : (applyOp env (Op.callback m b) s).assets
          = setStatusByName s.assets m
              (if b then Status.LOAD_SUCCESS else Status.jsUndefined) :=
        loadCallback_found_assets m b s hidx
      rw [hassets]
      constructor
      · rw [map_name_setStatusByName]
        exact hnd
      · intro e he
        rw [findByName_setStatus_ne s.assets m n _ (Ne.symm hmn)] at he
        exact hq e he

/-- A whole trace preserves the invariant of `step_preserves_inv` as long
as it contains no completion callback for the name `n`. -/
theorem run_preserves_inv (env : Nat → String → RetObj) (ops : List Op) :
    ∀ (s : QueueState) (n : String),
      (s.assets.map Descriptor.name).Nodup →
      (∀ b, Op.callback n b ∉ ops) →
      (∀ d, findByName s.assets n = some d → d.status = Status.QUEUED) →
      ((runOps env ops s).assets.map Descriptor.name).Nodup ∧
      (∀ d, findByName (runOps env ops s).assets n = some d →
        d.status = Status.QUEUED) := by
  induction ops with
  | nil =>
    intro s n hnd _ hq
    exact ⟨hnd, hq⟩
  | cons op rest ih =>
    intro s n hnd hnocb hq
    have hnocb1 : ∀ b, op ≠ Op.callback n b := by
      intro b he
      exact hnocb b (by rw [he]; exact List.mem_cons_self _ _)
    have hnocb2 : ∀ b, Op.callback n b ∉ rest := by
      intro b hb
      exact hnocb b (List.mem_cons_of_mem _ hb)
    have hstep := step_preserves_inv env op s n hnd hnocb1 hq
    exact ih (applyOp env op s) n hstep.1 hnocb2 hstep.2

/-- Along any trace from a fresh queue that delivers no completion callback
for a name, that name's descriptor — started by `update` or not — still has
status `QUEUED` whenever it is present. -/
theorem queued_or_none_run (env : Nat → String → RetObj) (ops : List Op)
    (n : String) (hnocb : ∀ b, Op.callback n b ∉ ops) :
    getStatus (runOps env ops initState) n = some Status.QUEUED ∨
    getStatus (runOps env ops initState) n = none := by
  have h := run_preserves_inv env ops initState n (by simp [initState]) hnocb
    (fun d hd => Option.noConfusion hd)
  rw [getStatus_eq_findByName]
  cases hf : findByName (runOps env ops initState).assets n with
  | none =>
    right
    rfl
  | some d =>
    left
    simp [h.2 d hf]

/-- C5 amended: a descriptor's status never regresses except via
`invalidate()`, but the transition chain has no Loading step.  First, under
any single public operation other than `invalidate` (with unique asset
names, and with completion callbacks restricted by the loader contract to
assets that are unsettled or already removed), a status either stays
unchanged or moves from `QUEUED` directly to the stored outcome —
`LOAD_SUCCESS`, or the undefined `Status.LOAD_FAILED` value on failure.
Second, along every operation trace from a fresh queue that delivers no
completion callback for a given name, that name's descriptor — including
one whose start function `update` has already invoked — still has status
`QUEUED` whenever it is present: the `LOADING` member is never assigned. -/
theorem C5_status_transitions :
    (∀ (env : Nat → String → RetObj) (op : Op) (s : QueueState)
        (name : String) (st st1 : Status),
      op ≠ Op.invalidate →
      (s.assets.map Descriptor.name).Nodup →
      (∀ n b, op = Op.callback n b →
        getStatus s n = some Status.QUEUED ∨ getStatus s n = none) →
      getStatus s name = some st →
      getStatus (applyOp env op s) name = some st1 →
      statusStepOK st st1) ∧
    (∀ (env : Nat → String → RetObj) (ops : List Op) (n : String),
      (∀ b, Op.callback n b ∉ ops) →
      getStatus (runOps env ops initState) n = some Status.QUEUED ∨
      getStatus (runOps env ops initState) n = none) :=
  ⟨fun env op s name st st1 hop hnd hcb h1 h2 =>
      status_forward_aux env op s name st st1 hop hnd hcb h1 h2,
   fun env ops n hnocb => queued_or_none_run env ops n hnocb⟩

/-- C5 amended, witness: delivering the success callback for the started
asset `"a.png"` moves its status forward from `QUEUED` to `LOAD_SUCCESS`;
and on the callback-free trace that adds and starts `"a.png"`, the
in-flight descriptor is still `QUEUED`. -/
theorem C5_status_transitions_witness :
    statusStepOK Status.QUEUED Status.LOAD_SUCCESS ∧
    (getStatus (runOps simpleEnv [Op.addAs 0 "a.png", Op.update] initState)
        "a.png" = some Status.QUEUED ∨
     getStatus (runOps simpleEnv [Op.addAs 0 "a.png", Op.update] initState)
        "a.png" = none) :=
  ⟨C5_status_transitions.1 simpleEnv (Op.callback "a.png" true)
      (runOps simpleEnv [Op.addAs 0 "a.png", Op.update] initState) "a.png"
      Status.QUEUED Status.LOAD_SUCCESS (by decide) (by decide)
      (fun n b hb => by cases hb; exact Or.inl (by decide))
      (by decide) (by decide),
   C5_status_transitions.2 simpleEnv [Op.addAs 0 "a.png", Op.update] "a.png"
      (fun b hb => by simp at hb)⟩

/-- C6: on an empty pending list, `update` returns whether `__loadCount` is
zero and does nothing else; on a non-empty pending list it pops exactly the
front descriptor, leaves the asset list, the counters, the registry and the
remaining pending descriptors untouched, starts the popped descriptor's
load function with a success callback and a failure callback both bound to
that descriptor's name, and returns whether `__loadCount` (unchanged by
the pop) is zero. -/
theorem C6_update_pops_front (s : QueueState) :
    (s.tasks = [] → update s = (s, [], none, decide (s.loadCount = 0))) ∧
    (∀ t rest, s.tasks = t :: rest →
      (update s).1.assets = s.assets ∧
      (update s).1.tasks = rest ∧
      (update s).1.loadCount = s.loadCount ∧
      (update s).1.totalItems = s.totalItems ∧
      (update s).1.loaders = s.loaders ∧
      (update s).2.2.1 = some ⟨t.name, t.loadFunc, ⟨t.name, true⟩, ⟨t.name, false⟩⟩ ∧
      (update s).2.2.2 = decide (s.loadCount = 0)) := by
  obtain ⟨a, ts, lc, ti, lo, ld⟩ := s
  constructor
  · intro h
    subst h
    rfl
  · intro t rest h
    subst h
    exact ⟨rfl, rfl, rfl, rfl, rfl, rfl, rfl⟩

/-- C6 witness: on a fresh queue `update` reports settled-and-empty, and on
a queue holding the single queued asset `"a.png"` it pops that descriptor
and hands its load function the two callbacks bound to `"a.png"`. -/
theorem C6_update_pops_front_witness :
    update initState = (initState, [], none, true) ∧
    (update (runOps simpleEnv [Op.addAs 0 "a.png"] initState)).2.2.1
      = some ⟨"a.png", 0, ⟨"a.png", true⟩, ⟨"a.png", false⟩⟩ :=
  ⟨(C6_update_pops_front initState).1 (by decide),
   ((C6_update_pops_front (runOps simpleEnv [Op.addAs 0 "a.png"] initState)).2
      ⟨"a.png", 0, JSVal.null, Status.QUEUED⟩ [] (by decide)).2.2.2.2.2.1⟩

/-- C7: a completion callback for a still-present asset decrements
`__loadCount` by exactly one; it dispatches exactly one progress event with
the asset's name, `current` computed after the decrement and `total`; an
error event with the same payload is dispatched immediately before the
progress event exactly when the outcome is a failure; and a finished event
follows the progress event, with the loading flag cleared, exactly when the
decremented count is zero. -/
theorem C7_completion_effects (s : QueueState) (name : String) (succ : Bool)
    (h : getDescriptor s name ≠ none) :
    (__loadCallback (JSVal.str name) (JSVal.bool succ) s).1.loadCount
      = s.loadCount - 1 ∧
    (__loadCallback (JSVal.str name) (JSVal.bool succ) s).1.loading
      = (if s.loadCount - 1 = 0 then false else s.loading) ∧
    (__loadCallback (JSVal.str name) (JSVal.bool succ) s).2
      = (if succ then []
         else [Ev.error name (s.totalItems - (s.loadCount - 1)) s.totalItems])
        ++ [Ev.progress name (s.totalItems - (s.loadCount - 1)) s.totalItems]
        ++ (if s.loadCount - 1 = 0
            then [Ev.finished (s.totalItems - (s.loadCount - 1)) s.totalItems]
            else []) := by
  have hidx := indexOf_ne_of_getDescriptor s name h
  cases succ <;> simp [__loadCallback, hidx]

/-- C7 witness: failing the only in-flight asset dispatches the error event
right before the progress event and then the finished event. -/
theorem C7_completion_effects_witness :
    (__loadCallback (JSVal.str "a.png") (JSVal.bool false)
        (runOps simpleEnv [Op.addAs 0 "a.png", Op.update] initState)).2
      = [Ev.error "a.png" 1 1, Ev.progress "a.png" 1 1, Ev.finished 1 1] := by
  have h := C7_completion_effects
    (runOps simpleEnv [Op.addAs 0 "a.png", Op.update] initState)
    "a.png" false (by decide)
  exact h.2.2.trans (by decide)

/-- C8: a completion callback (success or failure, whatever extra argument
the loader passed) for a name with no descriptor in the asset list is a
no-op: the state is returned unchanged and no event is dispatched. -/
theorem C8_callback_for_absent_name_noop (s : QueueState) (name : String)
    (arg : JSVal) (h : getDescriptor s name = none) :
    __loadCallback (JSVal.str name) arg s = (s, []) := by
  have hidx : indexOf s.assets name = -1 := by
    rw [indexOf_eq_neg_one_iff]
    rw [getDescriptor_eq_findByName] at h
    exact h
  exact loadCallback_not_found name arg s hidx

/-- C8 witness: after `"a.png"` is removed mid-flight, delivering its
success callback leaves the queue exactly as it was and fires nothing. -/
theorem C8_callback_for_absent_name_noop_witness :
    __loadCallback (JSVal.str "a.png") (JSVal.bool true)
        (runOps simpleEnv [Op.addAs 0 "a.png", Op.update, Op.remove "a.png"]
          initState)
      = (runOps simpleEnv [Op.addAs 0 "a.png", Op.update, Op.remove "a.png"]
          initState, []) :=
  C8_callback_for_absent_name_noop _ "a.png" (JSVal.bool true) (by decide)

/-- C9 counterexample: the claim says that any `add` or `addAs` call for an
already-present name raises the DuplicateAsset error.  With the
extension-less name `"sprite"` already present (added through `addAs`),
`add "sprite"` raises the missing-extension error instead, which differs
from the DuplicateAsset message `"asset already defined in asset
manager"`. -/
theorem C9_add_existing_name_other_error :
    getDescriptor (runOps simpleEnv [Op.addAs 0 "sprite"] initState) "sprite"
      ≠ none ∧
    add simpleEnv "sprite" (runOps simpleEnv [Op.addAs 0 "sprite"] initState)
      = Except.error "Asset name does not have a file extension: sprite" ∧
    "Asset name does not have a file extension: sprite"
      ≠ "asset already defined in asset manager" := by
  exact ⟨by decide, rfl, by decide⟩

/-- C9 amended: for a name already present in the queue, `addAs` always
raises the DuplicateAsset error, and `add` raises the DuplicateAsset error
exactly when the name resolves to a loader key with a registry entry, and
otherwise raises the corresponding resolution error (missing extension, or
no loader for the extension) — stated as an equality characterizing `add`
completely, so `add` never succeeds for a present name; in every case the
call throws before any mutation, so the queue — the existing descriptor
included — is unchanged. -/
theorem C9_duplicate_add_rejected (env : Nat → String → RetObj) (lid : Nat)
    (name : String) (s : QueueState) (hname : name ≠ "")
    (h : getDescriptor s name ≠ none) :
    addAs env (some lid) name s
      = Except.error "asset already defined in asset manager" ∧
    add env name s
      = (if ((__getDataType name).getD (__extension name)) = "" then
          Except.error ("Asset name does not have a file extension: " ++ name)
         else
          match lookupLoader s.loaders ((__getDataType name).getD (__extension name)) with
          | none => Except.error ("No known loader for extension "
              ++ ((__getDataType name).getD (__extension name)) ++ " in asset " ++ name)
          | some _ => Except.error "asset already defined in asset manager") := by
  have hidx := indexOf_ne_of_getDescriptor s name h
  have key : ∀ l, addAs env (some l) name s
      = Except.error "asset already defined in asset manager" := by
    intro l
    simp only [addAs, if_neg hname]
    rw [if_pos hidx]
  refine ⟨key lid, ?_⟩
  simp only [add, if_neg hname]
  by_cases hext : ((__getDataType name).getD (__extension name)) = ""
  · simp only [if_pos hext]
  · simp only [if_neg hext]
    cases hl : lookupLoader s.loaders ((__getDataType name).getD (__extension name)) with
    | none => rfl
    | some l => exact key l

/-- C9 amended, witness: with `"a.png"` already present, both `addAs` and
`add` reject the duplicate with the DuplicateAsset message; with the
extension-less `"sprite"` already present, `add` raises the
missing-extension error instead. -/
theorem C9_duplicate_add_rejected_witness :
    addAs simpleEnv (some 0) "a.png"
        (runOps simpleEnv [Op.addAs 0 "a.png"] initState)
      = Except.error "asset already defined in asset manager" ∧
    add simpleEnv "a.png" (runOps simpleEnv [Op.addAs 0 "a.png"] initState)
      = Except.error "asset already defined in asset manager" ∧
    add simpleEnv "sprite" (runOps simpleEnv [Op.addAs 0 "sprite"] initState)
      = Except.error "Asset name does not have a file extension: sprite" := by
  have h1 := C9_duplicate_add_rejected simpleEnv 0 "a.png"
    (runOps simpleEnv [Op.addAs 0 "a.png"] initState) (by decide) (by decide)
  have h2 := C9_duplicate_add_rejected simpleEnv 0 "sprite"
    (runOps simpleEnv [Op.addAs 0 "sprite"] initState) (by decide) (by decide)
  exact ⟨h1.1, h1.2.trans (by rfl), h2.2.trans (by rfl)⟩

/-- C10: the callbacks `update` hands to a loader have the asset name and
the success flag pre-bound, so invoking a bound callback gives the same
state and events whatever argument list the loader passes; in particular,
invoking the success callback with the single argument `false` — the
legacy convention the bundled ImageLoader uses on error — still records
the asset as `LOAD_SUCCESS`. -/
theorem C10_outcome_prebound (cb : BoundCB) (xs ys : List JSVal)
    (s : QueueState) (name : String) (h : getDescriptor s name ≠ none) :
    callBound cb xs s = callBound cb ys s ∧
    getStatus (callBound ⟨name, true⟩ [JSVal.bool false] s).1 name
      = some Status.LOAD_SUCCESS := by
  have hidx := indexOf_ne_of_getDescriptor s name h
  constructor
  · rfl
  · have hcb : callBound ⟨name, true⟩ [JSVal.bool false] s
        = __loadCallback (JSVal.str name) (JSVal.bool true) s := rfl
    rw [hcb, getStatus_eq_findByName,
      loadCallback_found_assets name true s hidx]
    simp only [if_pos rfl]
    rw [findByName_setStatus_self]
    cases hf : findByName s.assets name with
    | none =>
      exact absurd ((indexOf_eq_neg_one_iff s.assets name).mpr hf) hidx
    | some d => simp

/-- C10 witness: with `"a.png"` in flight, the bound success callback gives
the same result with no arguments as with a spurious numeric argument, and
invoking it with the argument `false` still records `LOAD_SUCCESS`. -/
theorem C10_outcome_prebound_witness :
    callBound ⟨"a.png", true⟩ []
        (runOps simpleEnv [Op.addAs 0 "a.png", Op.update] initState)
      = callBound ⟨"a.png", true⟩ [JSVal.num 7]
          (runOps simpleEnv [Op.addAs 0 "a.png", Op.update] initState) ∧
    getStatus (callBound ⟨"a.png", true⟩ [JSVal.bool false]
        (runOps simpleEnv [Op.addAs 0 "a.png", Op.update] initState)).1 "a.png"
      = some Status.LOAD_SUCCESS :=
  C10_outcome_prebound ⟨"a.png", true⟩ [] [JSVal.num 7]
    (runOps simpleEnv [Op.addAs 0 "a.png", Op.update] initState) "a.png"
    (by decide)

end AssetLoader
